import Mathlib

/-
Verification of the Teams2 SFU server (Python sources: server/sfu.py,
server/signaling.py) against its natural-language specification.

The Python code is shallowly embedded: mutable objects become records,
Python dicts become insertion-ordered association lists, async mutation
of shared state (signaling state changing during an await, tracks
arriving over time) is exposed as explicit input parameters, and Python
exceptions become Except results paired with the state as mutated up to
the raise point.
-/

set_option autoImplicit false

namespace Teams2

/-! String constants used by the server code. -/

def stableState : String := "stable"

def haveRemoteOffer : String := "have-remote-offer"

def newState : String := "new"

def failedState : String := "failed"

def closedState : String := "closed"

def disconnectedState : String := "disconnected"

def connectedState : String := "connected"

def anonymousName : String := "Anonymous"

def reasonNewParticipant : String := "new_participant"

def typeJoin : String := "join"

def typeLeave : String := "leave"

/-! Insertion-ordered association lists, modelling Python dicts:
`d[k] = v` keeps the original position of an existing key and appends a
fresh key at the end; `k in d`, `d.get(k)`, `d.pop(k)` as usual. -/

def dictKeys {α : Type} (d : List (String × α)) : List String :=
  d.map Prod.fst

def dictContains {α : Type} (k : String) (d : List (String × α)) : Bool :=
  decide (k ∈ dictKeys d)

def dictGet {α : Type} (k : String) : List (String × α) → Option α
  | [] => none
  | (k2, v) :: rest => if k2 = k then some v else dictGet k rest

def dictInsert {α : Type} (k : String) (v : α) (d : List (String × α)) :
    List (String × α) :=
  if dictContains k d then
    d.map (fun kv => if kv.1 = k then (k, v) else kv)
  else
    d ++ [(k, v)]

def dictRemove {α : Type} (k : String) (d : List (String × α)) :
    List (String × α) :=
  d.filter (fun kv => kv.1 ≠ k)

/-! Media tracks.  A track is an opaque aiortc object; we keep its `kind`
(the Python code reads `track.kind`), a ghost `src` field recording which
participant's transport produced it, and a ghost tag distinguishing relay
copies.  `MediaRelay.subscribe` is an external primitive; it is passed in
as a function so that its (normally impossible) failure can be studied. -/

structure Track where
  src : String
  kind : String
  tag : Nat
deriving DecidableEq, Repr

structure SessionDescription where
  sdp : String
  descType : String
deriving DecidableEq, Repr

/-- State of one aiortc RTCPeerConnection, as far as the server reads or
writes it: signaling / connection state strings, the applied remote and
local descriptions, and the outbound tracks attached via `addTrack`. -/
structure PeerConnection where
  signalingState : String
  connectionState : String
  remoteDescription : Option SessionDescription
  localDescription : Option SessionDescription
  addedTracks : List Track
deriving DecidableEq, Repr

/-- Fresh `RTCPeerConnection()` as constructed (sfu.py line 65). -/
def newPeerConnection : PeerConnection :=
  { signalingState := stableState
    connectionState := newState
    remoteDescription := none
    localDescription := none
    addedTracks := [] }

/-- Participant (sfu.py lines 11-19): identity, optional peer connection,
inbound tracks keyed by kind, and relayed tracks keyed by
`f"{other.id}_{kind}"`. -/
structure Participant where
  id : String
  name : String
  pc : Option PeerConnection
  tracks : List (String × Track)
  relay_tracks : List (String × Track)
deriving DecidableEq, Repr

/-- Model of `Participant.close` (sfu.py lines 21-27): close and drop the peer
connection, clear `tracks` and `relay_tracks`. -/
def Participant.close (p : Participant) : Participant :=
  { p with pc := none, tracks := [], relay_tracks := [] }

/-- Meeting registry (sfu.py lines 30-36). -/
structure Meeting where
  participants : List (String × Participant)
deriving DecidableEq, Repr

/-- Python's `s[:8]`: the first 8 characters of a string. -/
def pyTake8 (s : String) : String := String.mk (s.data.take 8)

/-- Model of `Meeting.add_participant` (sfu.py lines 38-46).  The nondeterministic
`str(uuid.uuid4())` draw is an explicit input; the code keeps only its
first 8 characters and inserts without any collision check. -/
def add_participant (draw : String) (name : String) (m : Meeting) :
    Meeting × Participant :=
  let participant_id := pyTake8 draw
  let participant : Participant :=
    { id := participant_id, name := name, pc := none
      tracks := [], relay_tracks := [] }
  ({ participants := dictInsert participant_id participant m.participants },
   participant)

/-- Model of `Meeting.remove_participant` (sfu.py lines 48-53): pop the entry if
present (the popped participant is also closed; only the registry effect
is observable here). -/
def remove_participant (pid : String) (m : Meeting) : Meeting :=
  { participants := dictRemove pid m.participants }

/-- Model of `Meeting.get_participant` (sfu.py lines 55-57). -/
def get_participant (pid : String) (m : Meeting) : Option Participant :=
  dictGet pid m.participants

/-- Model of `Meeting.get_other_participants` (sfu.py lines 59-61). -/
def get_other_participants (m : Meeting) (exclude_id : String) :
    List Participant :=
  (m.participants.filter (fun pr => pr.1 ≠ exclude_id)).map Prod.snd

/-- Model of `Meeting.get_participant_list` (sfu.py lines 155-160). -/
def get_participant_list (m : Meeting) : List (String × String) :=
  m.participants.map (fun pr => (pr.2.id, pr.2.name))

/-- Messages the server sends to clients (signaling.py / spec section 6).
Each constructor carries the fields of the corresponding JSON object. -/
inductive ServerMsg where
  | joined (participantId : String) (participants : List (String × String))
  | participant_joined (id : String) (name : String)
  | answerMsg (sdp : String)
  | request_offer (reason : String)
  | attention_focus (fromId : String) (fromName : String) (active : Bool)
  | participant_left (participantId : String)
deriving DecidableEq, Repr

/-- The `connectionstatechange` handler (sfu.py lines 80-86): on a
terminal state ("failed" or "closed") remove the participant; otherwise
do nothing.  It sends no signaling messages (second component). -/
def on_connectionstatechange (state : String) (pid : String) (m : Meeting) :
    Meeting × List (String × ServerMsg) :=
  if state = failedState ∨ state = closedState then
    (remove_participant pid m, [])
  else
    (m, [])

/-- Errors `Meeting.handle_offer` can raise: the renegotiation-conflict
exception (sfu.py line 120) or a failure propagating out of the relay
subscription loop (sfu.py lines 132-133, not caught there). -/
inductive OfferError where
  | negotiationConflict (state : String)
  | relayError (msg : String)
deriving DecidableEq, Repr

/-- Inner loop of the relay fan-out (sfu.py lines 127-135): for each
`(kind, track)` of one other participant `oid`, attach a relay
subscription unless `f"{oid}_{kind}"` is already recorded.  A failure of
the external `relay.subscribe` aborts the loop, keeping the mutations
made so far (Python exception semantics). -/
def relayKinds (sub : Track → Except String Track) (oid : String) :
    List (String × Track) → Participant → PeerConnection →
    (Participant × PeerConnection) × Option String
  | [], p, pc => ((p, pc), none)
  | (kind, track) :: rest, p, pc =>
    if dictContains (oid ++ "_" ++ kind) p.relay_tracks then
      relayKinds sub oid rest p pc
    else
      match sub track with
      | Except.error e => ((p, pc), some e)
      | Except.ok relay_track =>
        relayKinds sub oid rest
          { p with relay_tracks :=
              dictInsert (oid ++ "_" ++ kind) relay_track p.relay_tracks }
          { pc with addedTracks := pc.addedTracks ++ [relay_track] }

/-- Outer loop of the relay fan-out (sfu.py line 126): iterate over the
other participants, aborting on the first subscription failure. -/
def relayOthers (sub : Track → Except String Track) :
    List Participant → Participant → PeerConnection →
    (Participant × PeerConnection) × Option String
  | [], p, pc => ((p, pc), none)
  | other :: rest, p, pc =>
    match relayKinds sub other.id other.tracks p pc with
    | (st, some e) => (st, some e)
    | (st, none) => relayOthers sub rest st.1 st.2

/-- Tail of `Meeting.handle_offer` after the conflict check (sfu.py lines
122-141): apply the remote offer, run the relay fan-out, then create the
answer (its value `answer` is produced by the external `createAnswer`)
and apply it as local description.  A relay failure raises, keeping the
mutations made so far. -/
def applyOffer (sub : Track → Except String Track)
    (answer : SessionDescription) (m : Meeting) (p : Participant)
    (pc : PeerConnection) (offer : SessionDescription) :
    Participant × Except OfferError SessionDescription :=
  match relayOthers sub (get_other_participants m p.id) p
      { pc with remoteDescription := some offer
                signalingState := haveRemoteOffer } with
  | ((p2, pc2), some e) =>
    ({ p2 with pc := some pc2 }, Except.error (OfferError.relayError e))
  | ((p2, pc2), none) =>
    ({ p2 with pc := some ({ pc2 with localDescription := some answer, signalingState := stableState }) },
     Except.ok answer)

/-- Model of `Meeting.handle_offer` (sfu.py lines 102-141).  `s2` is the value
`pc.signalingState` has after the `asyncio.sleep(0.1)` (the state can be
changed by concurrent events during the wait); `answer` is the value the
external `createAnswer` returns.  The returned participant reflects all
mutations made before a raise. -/
def handle_offer (sub : Track → Except String Track) (s2 : String)
    (answer : SessionDescription) (m : Meeting) (p : Participant)
    (offer : SessionDescription) :
    Participant × Except OfferError SessionDescription :=
  match p.pc with
  | none =>
    applyOffer sub answer m { p with pc := some newPeerConnection }
      newPeerConnection offer
  | some pc =>
    if pc.signalingState ≠ stableState then
      if s2 ≠ stableState then
        ({ p with pc := some { pc with signalingState := s2 } },
         Except.error (OfferError.negotiationConflict s2))
      else
        applyOffer sub answer m
          { p with pc := some { pc with signalingState := s2 } }
          { pc with signalingState := s2 } offer
    else
      applyOffer sub answer m p pc offer

/-! The signaling layer (signaling.py).  A websocket is represented by
its `closed` flag; the `SignalingHandler` registry maps participant ids
to websockets.  "Sending" a message is recorded as a `(recipient id,
message)` delivery. -/

structure SigState where
  websockets : List (String × Bool)
deriving DecidableEq, Repr

/-- Model of `SignalingHandler.register` (signaling.py lines 22-25). -/
def register (pid : String) (closed : Bool) (sig : SigState) : SigState :=
  { websockets := dictInsert pid closed sig.websockets }

/-- Model of `SignalingHandler.unregister` (signaling.py lines 27-30). -/
def unregister (pid : String) (sig : SigState) : SigState :=
  { websockets := dictRemove pid sig.websockets }

/-- Model of `SignalingHandler.send_to` (signaling.py lines 32-36): deliver to the
registered, non-closed websocket of `pid`, otherwise silently no-op. -/
def send_to (sig : SigState) (pid : String) (message : ServerMsg) :
    List (String × ServerMsg) :=
  match dictGet pid sig.websockets with
  | none => []
  | some closed => if closed then [] else [(pid, message)]

/-- Python's `pid != exclude_id` where `exclude_id` may be `None`. -/
def notExcluded (exclude : Option String) (pid : String) : Bool :=
  match exclude with
  | some e => pid != e
  | none => true

/-- Model of `SignalingHandler.broadcast` (signaling.py lines 38-43): deliver to
every registered websocket except `exclude`, skipping closed ones. -/
def broadcast (sig : SigState) (message : ServerMsg)
    (exclude : Option String) : List (String × ServerMsg) :=
  sig.websockets.filterMap (fun pw =>
    if notExcluded exclude pw.1 && !pw.2 then some (pw.1, message) else none)

/-- Result of processing one `join` message. -/
structure JoinResult where
  meeting : Meeting
  sig : SigState
  participant : Participant
  sent : List (String × ServerMsg)
deriving DecidableEq, Repr

/-- The `join` branch of the websocket handler (signaling.py lines
64-81): read the name (defaulting to "Anonymous"), add the participant,
register its websocket, send the `joined` reply (with the participant
list taken after the insertion), and broadcast `participant_joined` to
the others. -/
def handle_join (draw : String) (dataName : Option String) (m : Meeting)
    (sig : SigState) : JoinResult :=
  let name := dataName.getD anonymousName
  let step := add_participant draw name m
  let m2 := step.1
  let participant := step.2
  let sig2 := register participant.id false sig
  let sent :=
    (participant.id,
     ServerMsg.joined participant.id (get_participant_list m2)) ::
    broadcast sig2 (ServerMsg.participant_joined participant.id name)
      (some participant.id)
  { meeting := m2, sig := sig2, participant := participant, sent := sent }

/-- The `finally` block of the websocket handler (signaling.py lines
152-162): unregister the websocket, remove the participant, then
broadcast `participant_left` (no exclusion; the leaver is already
unregistered). -/
def ws_teardown (pid : String) (m : Meeting) (sig : SigState) :
    Meeting × SigState × List (String × ServerMsg) :=
  let sig2 := unregister pid sig
  let m2 := remove_participant pid m
  (m2, sig2, broadcast sig2 (ServerMsg.participant_left pid) none)

/-! Control flow of the websocket message loop (signaling.py lines
57-162).  An inbound TEXT frame either fails `json.loads` (modelled as
`none`) or yields a record of optional fields read with `data.get`. -/

structure ClientData where
  msgType : Option String
  name : Option String
  sdp : Option String
  targetId : Option String
deriving DecidableEq, Repr

inductive StepOutcome where
  | continued
  | leftLoop
  | raised
deriving DecidableEq, Repr

inductive LoopEnd where
  | channelClosed
  | leftMeeting
  | crashed
deriving DecidableEq, Repr

/-- Loop-control effect of one TEXT message (signaling.py lines 59-147).
`json.loads` failure is uncaught, so it raises out of the loop; a parsed
message dispatches on `data.get("type")`: `join` establishes the
participant, `leave` (with a participant) breaks the loop, and every
other branch — including a missing or unknown type — falls through and
the loop continues (their server actions are modelled by `handle_join` /
`handle_offer` separately).  Returns the outcome and whether a
participant exists afterwards. -/
def process_text_message (parsed : Option ClientData)
    (hasParticipant : Bool) : StepOutcome × Bool :=
  match parsed with
  | none => (StepOutcome.raised, hasParticipant)
  | some data =>
    match data.msgType with
    | none => (StepOutcome.continued, hasParticipant)
    | some t =>
      if t = typeJoin then (StepOutcome.continued, true)
      else if t = typeLeave ∧ hasParticipant then
        (StepOutcome.leftLoop, hasParticipant)
      else (StepOutcome.continued, hasParticipant)

/-- The `async for` message loop: returns how many messages were
consumed, how the loop ended, and whether a participant exists at exit
(in which case the `finally` teardown tears it down). -/
def message_loop : List (Option ClientData) → Bool → Nat × LoopEnd × Bool
  | [], hp => (0, LoopEnd.channelClosed, hp)
  | msg :: rest, hp =>
    match process_text_message msg hp with
    | (StepOutcome.continued, hp2) =>
      let r := message_loop rest hp2
      (r.1 + 1, r.2.1, r.2.2)
    | (StepOutcome.leftLoop, hp2) => (1, LoopEnd.leftMeeting, hp2)
    | (StepOutcome.raised, hp2) => (1, LoopEnd.crashed, hp2)

/-! `relay_tracks_and_renegotiate` (signaling.py lines 167-193).  The
participant's `tracks` dict changes asynchronously while the poll
sleeps; `obs i` is its value observed at the i-th check. -/

/-- The polling loop (signaling.py lines 170-177): up to `remaining`
checks starting at index `i`, returning the first non-empty observation
or `none` on timeout. -/
def pollFrom (obs : Nat → List (String × Track)) :
    Nat → Nat → Option (List (String × Track))
  | _, 0 => none
  | i, Nat.succ r =>
    if obs i = [] then pollFrom obs (i + 1) r else some (obs i)

/-- The notification loop (signaling.py lines 182-193): request a fresh
offer from every other participant whose connection state is
"connected". -/
def notifyOthers (sig : SigState) :
    List Participant → List (String × ServerMsg)
  | [] => []
  | other :: rest =>
    match other.pc with
    | some pc =>
      if pc.connectionState = connectedState then
        send_to sig other.id (ServerMsg.request_offer reasonNewParticipant) ++
          notifyOthers sig rest
      else notifyOthers sig rest
    | none => notifyOthers sig rest

/-- Model of `relay_tracks_and_renegotiate` (signaling.py lines 167-193): poll up
to 20 times for the new participant's tracks; on timeout return with no
message sent, otherwise notify the connected other participants. -/
def relay_tracks_and_renegotiate (obs : Nat → List (String × Track))
    (newId : String) (m : Meeting) (sig : SigState) :
    List (String × ServerMsg) :=
  match pollFrom obs 0 20 with
  | none => []
  | some _ => notifyOthers sig (get_other_participants m newId)

/-! Specification-side definitions: the relay-subscription invariant of
spec section 3 and well-formedness of the environment. -/

/-- Number of tracks in `l` that are relay copies of participant `s`'s
track of kind `k`. -/
def countPair (l : List Track) (s k : String) : Nat :=
  (l.filter (fun t => t.src == s && t.kind == k)).length

/-- 1 when the dedup key for the pair `(s, k)` is recorded in `rel`. -/
def keyInd (rel : List (String × Track)) (s k : String) : Nat :=
  if dictContains (s ++ "_" ++ k) rel then 1 else 0

/-- Core relay invariant: dedup keys are never recorded twice, and a
relay copy of a pair is attached at most once, and only when its key is
recorded. -/
def RelInv (rel : List (String × Track)) (att : List Track) : Prop :=
  (dictKeys rel).Nodup ∧ ∀ s k, countPair att s k ≤ keyInd rel s k

/-- Outbound tracks currently attached to a participant's connection. -/
def attachedTracks (p : Participant) : List Track :=
  match p.pc with
  | none => []
  | some pc => pc.addedTracks

/-- The relay invariant of one participant. -/
def Inv (p : Participant) : Prop :=
  RelInv p.relay_tracks (attachedTracks p)

/-- The inbound-track dict of a participant is as the `on_track` handler
(sfu.py lines 68-72) builds it: keyed by the track's own kind, holding
tracks of that participant's transport. -/
def TracksWF (oid : String) (tracks : List (String × Track)) : Prop :=
  ∀ kt ∈ tracks, (kt : String × Track).2.kind = kt.1 ∧ kt.2.src = oid

def MeetingWF (m : Meeting) : Prop :=
  ∀ pr ∈ m.participants, TracksWF (pr : String × Participant).2.id pr.2.tracks

/-- Contract of `MediaRelay.subscribe`: it returns a forwarding copy of its argument:
same source, same kind. -/
def SubWF (sub : Track → Except String Track) : Prop :=
  ∀ t r, sub t = Except.ok r → r.src = t.src ∧ r.kind = t.kind

/-- Environment of one `handle_offer` call in a trace: the external
inputs and the meeting snapshot at that call. -/
structure OfferCall where
  sub : Track → Except String Track
  s2 : String
  answer : SessionDescription
  m : Meeting
  offer : SessionDescription

/-- A participant's state after a sequence of `handle_offer` calls
(successful or failed). -/
def runOffers (calls : List OfferCall) (p : Participant) : Participant :=
  calls.foldl (fun q c => (handle_offer c.sub c.s2 c.answer c.m q c.offer).1) p

def CallWF (c : OfferCall) : Prop :=
  SubWF c.sub ∧ MeetingWF c.m

/-- Number of deliveries in `sent` addressed to `pid`. -/
def deliveredCount (sent : List (String × ServerMsg)) (pid : String) : Nat :=
  (sent.filter (fun x => x.1 == pid)).length

/-! Concrete fixtures for counterexamples and witnesses. -/

def drawA : String := "aaaaaaaa-1111"

def drawA2 : String := "aaaaaaaa-2222"

def drawB : String := "bbbbbbbb-1111"

def idA8 : String := "aaaaaaaa"

def idB8 : String := "bbbbbbbb"

def nameAlice : String := "Alice"

def nameBob : String := "Bob"

def audioKind : String := "audio"

def relayErrMsg : String := "Track ended"

def offerSdpStr : String := "v=0 offer"

def answerSdpStr : String := "v=0 answer"

def offerTypeStr : String := "offer"

def answerTypeStr : String := "answer"

def meeting0 : Meeting := { participants := [] }

def sig0 : SigState := { websockets := [] }

def sdpOffer : SessionDescription :=
  { sdp := offerSdpStr, descType := offerTypeStr }

def sdpAnswer : SessionDescription :=
  { sdp := answerSdpStr, descType := answerTypeStr }

def pA : Participant :=
  { id := idA8, name := nameAlice, pc := none, tracks := [], relay_tracks := [] }

def pB : Participant :=
  { id := idB8, name := nameBob, pc := none, tracks := [], relay_tracks := [] }

def mAB : Meeting := { participants := [(idA8, pA), (idB8, pB)] }

def sigAB : SigState := { websockets := [(idA8, false), (idB8, false)] }

def trackB : Track := { src := idB8, kind := audioKind, tag := 0 }

def pBtracks : Participant := { pB with tracks := [(audioKind, trackB)] }

def mWithB : Meeting := { participants := [(idB8, pBtracks)] }

def subOK : Track → Except String Track := fun t => Except.ok t

def subBad : Track → Except String Track := fun _ => Except.error relayErrMsg

def stalePC : PeerConnection := { newPeerConnection with signalingState := haveRemoteOffer }

def pAstale : Participant := { pA with pc := some stalePC }

def joinData : ClientData :=
  { msgType := some typeJoin, name := some nameAlice, sdp := none, targetId := none }

def noTypeData : ClientData :=
  { msgType := none, name := some nameAlice, sdp := none, targetId := none }

def obsNever : Nat → List (String × Track) := fun _ => []

/-! Association-list lemmas. -/

theorem dictContains_true_iff {α : Type} (k : String) (d : List (String × α)) :
    dictContains k d = true ↔ k ∈ dictKeys d := by
  simp only [dictContains, decide_eq_true_eq]

theorem dictContains_false_iff {α : Type} (k : String) (d : List (String × α)) :
    dictContains k d = false ↔ k ∉ dictKeys d := by
  simp only [dictContains, decide_eq_false_iff_not]

theorem dictInsert_of_not_contains {α : Type} (k : String) (v : α)
    (d : List (String × α)) (h : dictContains k d = false) :
    dictInsert k v d = d ++ [(k, v)] := by
  simp [dictInsert, h]

theorem dictKeys_cons {α : Type} (kv : String × α) (d : List (String × α)) :
    dictKeys (kv :: d) = kv.1 :: dictKeys d := rfl

theorem dictGet_append_self {α : Type} (k : String) (v : α)
    (d : List (String × α)) (h : k ∉ dictKeys d) :
    dictGet k (d ++ [(k, v)]) = some v := by
  induction d with
  | nil => simp [dictGet]
  | cons kv rest ih =>
    obtain ⟨k2, u⟩ := kv
    rw [dictKeys_cons, List.mem_cons] at h
    push_neg at h
    rw [List.cons_append]
    simp only [dictGet]
    rw [if_neg (fun he => h.1 he.symm)]
    exact ih h.2

theorem dictGet_mapReplace {α : Type} (k : String) (v : α)
    (d : List (String × α)) (h : k ∈ dictKeys d) :
    dictGet k (d.map (fun kv => if kv.1 = k then (k, v) else kv)) = some v := by
  induction d with
  | nil => simp [dictKeys] at h
  | cons kv rest ih =>
    obtain ⟨k2, u⟩ := kv
    simp only [List.map_cons]
    by_cases h2 : k2 = k
    · have hf : (if (k2, u).1 = k then (k, v) else (k2, u)) = (k, v) := if_pos h2
      rw [hf]
      simp [dictGet]
    · have hf : (if (k2, u).1 = k then (k, v) else (k2, u)) = (k2, u) := if_neg h2
      rw [hf]
      simp only [dictGet]
      rw [if_neg h2]
      apply ih
      rw [dictKeys_cons, List.mem_cons] at h
      rcases h with h | h
      · exact absurd h.symm h2
      · exact h

theorem dictGet_insert_self {α : Type} (k : String) (v : α)
    (d : List (String × α)) :
    dictGet k (dictInsert k v d) = some v := by
  by_cases h : dictContains k d
  · simp only [dictInsert, h, if_pos]
    exact dictGet_mapReplace k v d ((dictContains_true_iff k d).mp h)
  · have hf : dictContains k d = false := by
      simpa using h
    rw [dictInsert_of_not_contains k v d hf]
    exact dictGet_append_self k v d ((dictContains_false_iff k d).mp hf)

/-! Claim C10. -/

/-- C10: a join message whose data lacks a "name" field behaves exactly
like a join with the name "Anonymous": a participant is created with
display name "Anonymous", registered in the meeting, and the first reply
sent is the usual "joined" message. -/
theorem C10_join_without_name (draw : String) (m : Meeting) (sig : SigState) :
    handle_join draw none m sig = handle_join draw (some anonymousName) m sig ∧
    (handle_join draw none m sig).participant.name = anonymousName ∧
    get_participant (handle_join draw none m sig).participant.id
        (handle_join draw none m sig).meeting =
      some (handle_join draw none m sig).participant ∧
    (handle_join draw none m sig).sent.head? =
      some ((handle_join draw none m sig).participant.id,
        ServerMsg.joined (handle_join draw none m sig).participant.id
          (get_participant_list (handle_join draw none m sig).meeting)) := by
  refine ⟨rfl, rfl, ?_, rfl⟩
  simp only [handle_join, add_participant, get_participant]
  exact dictGet_insert_self _ _ _

/-! Claim C2. -/

/-- C2: for a participant that already has a connection, if the signaling
state is not "stable" at the check and still not "stable" after the
bounded retry delay, handle_offer fails with the negotiation-conflict
error and performs no mutation: no remote or local description is
applied, no track is attached, and no relay subscription is recorded. -/
theorem C2_conflict_leaves_state (sub : Track → Except String Track)
    (s2 : String) (answer : SessionDescription) (m : Meeting)
    (p : Participant) (offer : SessionDescription) (pc0 : PeerConnection)
    (hpc : p.pc = some pc0) (h1 : pc0.signalingState ≠ stableState)
    (h2 : s2 ≠ stableState) :
    (handle_offer sub s2 answer m p offer).2 =
      Except.error (OfferError.negotiationConflict s2) ∧
    (handle_offer sub s2 answer m p offer).1.relay_tracks = p.relay_tracks ∧
    (handle_offer sub s2 answer m p offer).1.tracks = p.tracks ∧
    ∃ pc', (handle_offer sub s2 answer m p offer).1.pc = some pc' ∧
      pc'.remoteDescription = pc0.remoteDescription ∧
      pc'.localDescription = pc0.localDescription ∧
      pc'.addedTracks = pc0.addedTracks := by
  have hro : handle_offer sub s2 answer m p offer =
      ({ p with pc := some { pc0 with signalingState := s2 } },
       Except.error (OfferError.negotiationConflict s2)) := by
    simp only [handle_offer, hpc]
    rw [if_pos h1, if_pos h2]
  rw [hro]
  exact ⟨rfl, rfl, rfl, ⟨{ pc0 with signalingState := s2 }, rfl, rfl, rfl, rfl⟩⟩

/-- C2 witness: a concrete renegotiation in which the connection is stuck
in "have-remote-offer" before and after the retry delay. -/
theorem C2_conflict_leaves_state_witness :
    (pAstale.pc = some stalePC ∧ stalePC.signalingState ≠ stableState ∧
      haveRemoteOffer ≠ stableState) ∧
    ((handle_offer subOK haveRemoteOffer sdpAnswer meeting0 pAstale sdpOffer).2 =
      Except.error (OfferError.negotiationConflict haveRemoteOffer) ∧
    (handle_offer subOK haveRemoteOffer sdpAnswer meeting0 pAstale sdpOffer).1.relay_tracks =
      pAstale.relay_tracks ∧
    (handle_offer subOK haveRemoteOffer sdpAnswer meeting0 pAstale sdpOffer).1.tracks =
      pAstale.tracks ∧
    ∃ pc', (handle_offer subOK haveRemoteOffer sdpAnswer meeting0 pAstale sdpOffer).1.pc =
        some pc' ∧
      pc'.remoteDescription = stalePC.remoteDescription ∧
      pc'.localDescription = stalePC.localDescription ∧
      pc'.addedTracks = stalePC.addedTracks) :=
  ⟨⟨rfl, by decide, by decide⟩,
   C2_conflict_leaves_state subOK haveRemoteOffer sdpAnswer meeting0 pAstale
     sdpOffer stalePC rfl (by decide) (by decide)⟩

/-! Preservation lemmas for the relay fan-out loop: it only touches
`relay_tracks` of the participant and `addedTracks` of the connection. -/

theorem relayKinds_fields (sub : Track → Except String Track) (oid : String) :
    ∀ (tracks : List (String × Track)) (p : Participant) (pc : PeerConnection),
      (relayKinds sub oid tracks p pc).1.2.remoteDescription = pc.remoteDescription ∧
      (relayKinds sub oid tracks p pc).1.2.localDescription = pc.localDescription ∧
      (relayKinds sub oid tracks p pc).1.1.id = p.id ∧
      (relayKinds sub oid tracks p pc).1.1.tracks = p.tracks ∧
      (relayKinds sub oid tracks p pc).1.1.pc = p.pc := by
  intro tracks
  induction tracks with
  | nil => intro p pc; exact ⟨rfl, rfl, rfl, rfl, rfl⟩
  | cons kt rest ih =>
    intro p pc
    obtain ⟨kind, track⟩ := kt
    by_cases hc : dictContains (oid ++ "_" ++ kind) p.relay_tracks = true
    · simp only [relayKinds, hc, if_true]
      exact ih p pc
    · simp only [relayKinds, hc, if_false, Bool.false_eq_true]
      cases hs : sub track with
      | error e => exact ⟨rfl, rfl, rfl, rfl, rfl⟩
      | ok rt => exact ih _ _

theorem relayOthers_fields (sub : Track → Except String Track) :
    ∀ (others : List Participant) (p : Participant) (pc : PeerConnection),
      (relayOthers sub others p pc).1.2.remoteDescription = pc.remoteDescription ∧
      (relayOthers sub others p pc).1.2.localDescription = pc.localDescription ∧
      (relayOthers sub others p pc).1.1.id = p.id ∧
      (relayOthers sub others p pc).1.1.tracks = p.tracks ∧
      (relayOthers sub others p pc).1.1.pc = p.pc := by
  intro others
  induction others with
  | nil => intro p pc; exact ⟨rfl, rfl, rfl, rfl, rfl⟩
  | cons other rest ih =>
    intro p pc
    have hk := relayKinds_fields sub other.id other.tracks p pc
    rcases hrk : relayKinds sub other.id other.tracks p pc with ⟨⟨p1, pc1⟩, err⟩
    rw [hrk] at hk
    simp only [relayOthers, hrk]
    cases err with
    | some e => exact hk
    | none =>
      have hr := ih p1 pc1
      refine ⟨?_, ?_, ?_, ?_, ?_⟩
      · exact hr.1.trans hk.1
      · exact hr.2.1.trans hk.2.1
      · exact hr.2.2.1.trans hk.2.2.1
      · exact hr.2.2.2.1.trans hk.2.2.2.1
      · exact hr.2.2.2.2.trans hk.2.2.2.2

/-! Extension lemmas: the relay fan-out only appends to the recorded
subscriptions (never removes or rewrites an entry). -/

theorem relayKinds_relay_append (sub : Track → Except String Track)
    (oid : String) :
    ∀ (tracks : List (String × Track)) (p : Participant) (pc : PeerConnection),
      ∃ tail, (relayKinds sub oid tracks p pc).1.1.relay_tracks =
        p.relay_tracks ++ tail := by
  intro tracks
  induction tracks with
  | nil => intro p pc; exact ⟨[], by simp [relayKinds]⟩
  | cons kt rest ih =>
    intro p pc
    obtain ⟨kind, track⟩ := kt
    by_cases hc : dictContains (oid ++ "_" ++ kind) p.relay_tracks = true
    · simp only [relayKinds, hc, if_true]
      exact ih p pc
    · simp only [relayKinds, hc, if_false, Bool.false_eq_true]
      cases hs : sub track with
      | error e => exact ⟨[], by simp⟩
      | ok rt =>
        obtain ⟨tail, htail⟩ := ih
          { p with relay_tracks :=
              dictInsert (oid ++ "_" ++ kind) rt p.relay_tracks }
          { pc with addedTracks := pc.addedTracks ++ [rt] }
        refine ⟨(oid ++ "_" ++ kind, rt) :: tail, ?_⟩
        rw [htail]
        have hf : dictContains (oid ++ "_" ++ kind) p.relay_tracks = false := by
          simpa using hc
        rw [dictInsert_of_not_contains _ _ _ hf]
        simp

theorem relayOthers_relay_append (sub : Track → Except String Track) :
    ∀ (others : List Participant) (p : Participant) (pc : PeerConnection),
      ∃ tail, (relayOthers sub others p pc).1.1.relay_tracks =
        p.relay_tracks ++ tail := by
  intro others
  induction others with
  | nil => intro p pc; exact ⟨[], by simp [relayOthers]⟩
  | cons other rest ih =>
    intro p pc
    have hk := relayKinds_relay_append sub other.id other.tracks p pc
    rcases hrk : relayKinds sub other.id other.tracks p pc with ⟨⟨p1, pc1⟩, err⟩
    rw [hrk] at hk
    simp only [relayOthers, hrk]
    cases err with
    | some e => exact hk
    | none =>
      obtain ⟨t1, ht1⟩ := hk
      obtain ⟨t2, ht2⟩ := ih p1 pc1
      exact ⟨t1 ++ t2, by rw [ht2, ht1, List.append_assoc]⟩

/-! Claim C9. -/

theorem applyOffer_no_conflict (sub : Track → Except String Track)
    (answer : SessionDescription) (m : Meeting) (p : Participant)
    (pc : PeerConnection) (offer : SessionDescription) :
    ∀ st, (applyOffer sub answer m p pc offer).2 ≠
      Except.error (OfferError.negotiationConflict st) := by
  intro st
  simp only [applyOffer]
  rcases hro : relayOthers sub (get_other_participants m p.id) p
      { pc with remoteDescription := some offer
                signalingState := haveRemoteOffer } with ⟨⟨p2, pc2⟩, err⟩
  cases err with
  | some e => intro h; simp at h
  | none => intro h; simp at h

theorem applyOffer_remote (sub : Track → Except String Track)
    (answer : SessionDescription) (m : Meeting) (p : Participant)
    (pc : PeerConnection) (offer : SessionDescription) :
    ∃ pc', (applyOffer sub answer m p pc offer).1.pc = some pc' ∧
      pc'.remoteDescription = some offer := by
  simp only [applyOffer]
  have hf := relayOthers_fields sub (get_other_participants m p.id) p
      { pc with remoteDescription := some offer
                signalingState := haveRemoteOffer }
  rcases hro : relayOthers sub (get_other_participants m p.id) p
      { pc with remoteDescription := some offer
                signalingState := haveRemoteOffer } with ⟨⟨p2, pc2⟩, err⟩
  rw [hro] at hf
  cases err with
  | some e => exact ⟨pc2, rfl, hf.1⟩
  | none =>
    refine ⟨{ pc2 with localDescription := some answer,
                       signalingState := stableState }, rfl, ?_⟩
    exact hf.1

/-- C9: on an initial offer (the participant has no connection yet)
handle_offer never fails with the negotiation-conflict error, whatever
the signaling states are; a connection is created and the remote offer
is applied to it. -/
theorem C9_initial_offer_no_conflict (sub : Track → Except String Track)
    (s2 : String) (answer : SessionDescription) (m : Meeting)
    (p : Participant) (offer : SessionDescription) (hpc : p.pc = none) :
    (∀ st, (handle_offer sub s2 answer m p offer).2 ≠
      Except.error (OfferError.negotiationConflict st)) ∧
    ∃ pc', (handle_offer sub s2 answer m p offer).1.pc = some pc' ∧
      pc'.remoteDescription = some offer := by
  simp only [handle_offer, hpc]
  exact ⟨applyOffer_no_conflict sub answer m _ newPeerConnection offer,
         applyOffer_remote sub answer m _ newPeerConnection offer⟩

/-- C9 witness: a concrete initial offer (with a failing relay primitive
and an arbitrary unstable sampled state, to exercise generality). -/
theorem C9_initial_offer_no_conflict_witness :
    pA.pc = none ∧
    ((∀ st, (handle_offer subBad haveRemoteOffer sdpAnswer mWithB pA sdpOffer).2 ≠
      Except.error (OfferError.negotiationConflict st)) ∧
    ∃ pc', (handle_offer subBad haveRemoteOffer sdpAnswer mWithB pA sdpOffer).1.pc = some pc' ∧
      pc'.remoteDescription = some sdpOffer) :=
  ⟨rfl, C9_initial_offer_no_conflict subBad haveRemoteOffer sdpAnswer mWithB
    pA sdpOffer rfl⟩

/-! Claim C7. -/

/-- C7 counterexample: with one other participant holding an audio track
and a relay primitive that rejects the subscription, handle_offer does
not skip and continue — it fails with the relay error and produces no
answer. -/
theorem C7_counterexample :
    (handle_offer subBad stableState sdpAnswer mWithB pA sdpOffer).2 =
      Except.error (OfferError.relayError relayErrMsg) := by
  rfl

/-- The local description at entry to handle_offer. -/
def entryLocal (p : Participant) : Option SessionDescription :=
  match p.pc with
  | none => none
  | some pc0 => pc0.localDescription

theorem applyOffer_error_state (sub : Track → Except String Track)
    (answer : SessionDescription) (m : Meeting) (p : Participant)
    (pc : PeerConnection) (offer : SessionDescription)
    (p' : Participant) (err : OfferError)
    (h : applyOffer sub answer m p pc offer = (p', Except.error err)) :
    ∃ pc', p'.pc = some pc' ∧ pc'.localDescription = pc.localDescription := by
  have hf := relayOthers_fields sub (get_other_participants m p.id) p
      { pc with remoteDescription := some offer
                signalingState := haveRemoteOffer }
  rw [applyOffer] at h
  rcases hro : relayOthers sub (get_other_participants m p.id) p
      { pc with remoteDescription := some offer
                signalingState := haveRemoteOffer } with ⟨⟨p2, pc2⟩, e2⟩
  rw [hro] at hf h
  cases e2 with
  | some e =>
    have hp : p' = { p2 with pc := some pc2 } := by
      have := congrArg Prod.fst h
      exact this.symm
    exact ⟨pc2, by rw [hp], hf.2.1⟩
  | none =>
    exfalso
    have := congrArg Prod.snd h
    simp at this

/-- C7 amended: if the relay primitive rejects one track subscription
during handle_offer's fan-out, the whole offer fails with that relay
error (no answer is produced); subscriptions recorded before the failure
persist, and no local description is applied by the failed call. -/
theorem C7_relay_failure_aborts (sub : Track → Except String Track)
    (s2 : String) (answer : SessionDescription) (m : Meeting)
    (p : Participant) (offer : SessionDescription) (p' : Participant)
    (e : String)
    (h : handle_offer sub s2 answer m p offer =
      (p', Except.error (OfferError.relayError e))) :
    (∃ tail, p'.relay_tracks = p.relay_tracks ++ tail) ∧
    ∃ pc', p'.pc = some pc' ∧ pc'.localDescription = entryLocal p := by
  cases hpc : p.pc with
  | none =>
    simp only [handle_offer, hpc] at h
    constructor
    · have ha := relayOthers_relay_append sub
        (get_other_participants m ({ p with pc := some newPeerConnection } : Participant).id)
        { p with pc := some newPeerConnection }
        { newPeerConnection with remoteDescription := some offer
                                 signalingState := haveRemoteOffer }
      obtain ⟨tail, htail⟩ := ha
      rw [applyOffer] at h
      rcases hro : relayOthers sub
          (get_other_participants m ({ p with pc := some newPeerConnection } : Participant).id)
          { p with pc := some newPeerConnection }
          { newPeerConnection with remoteDescription := some offer
                                   signalingState := haveRemoteOffer } with ⟨⟨p2, pc2⟩, e2⟩
      rw [hro] at htail h
      cases e2 with
      | some e3 =>
        have hp : p' = { p2 with pc := some pc2 } := (congrArg Prod.fst h).symm
        exact ⟨tail, by rw [hp]; exact htail⟩
      | none =>
        exfalso
        have := congrArg Prod.snd h
        simp at this
    · have := applyOffer_error_state sub answer m _ newPeerConnection offer p' _ h
      simpa [entryLocal, hpc, newPeerConnection] using this
  | some pc0 =>
    simp only [handle_offer, hpc] at h
    by_cases h1 : pc0.signalingState ≠ stableState
    · rw [if_pos h1] at h
      by_cases h2 : s2 ≠ stableState
      · rw [if_pos h2] at h
        exfalso
        have := congrArg Prod.snd h
        simp at this
      · rw [if_neg h2] at h
        constructor
        · have ha := relayOthers_relay_append sub
            (get_other_participants m ({ p with pc := some { pc0 with signalingState := s2 } } : Participant).id)
            { p with pc := some { pc0 with signalingState := s2 } }
            { { pc0 with signalingState := s2 } with remoteDescription := some offer
                                                     signalingState := haveRemoteOffer }
          obtain ⟨tail, htail⟩ := ha
          rw [applyOffer] at h
          rcases hro : relayOthers sub
              (get_other_participants m ({ p with pc := some { pc0 with signalingState := s2 } } : Participant).id)
              { p with pc := some { pc0 with signalingState := s2 } }
              { { pc0 with signalingState := s2 } with remoteDescription := some offer
                                                       signalingState := haveRemoteOffer } with ⟨⟨p2, pc2⟩, e2⟩
          rw [hro] at htail h
          cases e2 with
          | some e3 =>
            have hp : p' = { p2 with pc := some pc2 } := (congrArg Prod.fst h).symm
            exact ⟨tail, by rw [hp]; exact htail⟩
          | none =>
            exfalso
            have := congrArg Prod.snd h
            simp at this
        · have := applyOffer_error_state sub answer m _
            { pc0 with signalingState := s2 } offer p' _ h
          simpa [entryLocal, hpc] using this
    · rw [if_neg h1] at h
      constructor
      · have ha := relayOthers_relay_append sub
          (get_other_participants m p.id) p
          { pc0 with remoteDescription := some offer
                     signalingState := haveRemoteOffer }
        obtain ⟨tail, htail⟩ := ha
        rw [applyOffer] at h
        rcases hro : relayOthers sub (get_other_participants m p.id) p
            { pc0 with remoteDescription := some offer
                       signalingState := haveRemoteOffer } with ⟨⟨p2, pc2⟩, e2⟩
        rw [hro] at htail h
        cases e2 with
        | some e3 =>
          have hp : p' = { p2 with pc := some pc2 } := (congrArg Prod.fst h).symm
          exact ⟨tail, by rw [hp]; exact htail⟩
        | none =>
          exfalso
          have := congrArg Prod.snd h
          simp at this
      · have := applyOffer_error_state sub answer m p pc0 offer p' _ h
        simpa [entryLocal, hpc] using this

/-- C7 amended witness: the concrete failing offer of the
counterexample, instantiating the amended theorem. -/
theorem C7_relay_failure_aborts_witness :
    (handle_offer subBad stableState sdpAnswer mWithB pA sdpOffer =
      ((handle_offer subBad stableState sdpAnswer mWithB pA sdpOffer).1,
       Except.error (OfferError.relayError relayErrMsg))) ∧
    ((∃ tail, (handle_offer subBad stableState sdpAnswer mWithB pA sdpOffer).1.relay_tracks =
        pA.relay_tracks ++ tail) ∧
    ∃ pc', (handle_offer subBad stableState sdpAnswer mWithB pA sdpOffer).1.pc = some pc' ∧
      pc'.localDescription = entryLocal pA) :=
  ⟨rfl, C7_relay_failure_aborts subBad stableState sdpAnswer mWithB pA sdpOffer
    _ relayErrMsg rfl⟩

/-! Claim C3: the relay-subscription invariant. -/

theorem dictKeys_append {α : Type} (d e : List (String × α)) :
    dictKeys (d ++ e) = dictKeys d ++ dictKeys e := by
  simp [dictKeys]

theorem countPair_append (l1 l2 : List Track) (s k : String) :
    countPair (l1 ++ l2) s k = countPair l1 s k + countPair l2 s k := by
  simp [countPair, List.filter_append]

theorem countPair_single (t : Track) (s k : String) :
    countPair [t] s k = if t.src = s ∧ t.kind = k then 1 else 0 := by
  by_cases h1 : t.src = s <;> by_cases h2 : t.kind = k <;>
    simp [countPair, h1, h2]

theorem countPair_nil (s k : String) : countPair [] s k = 0 := rfl

theorem keyInd_le_one (rel : List (String × Track)) (s k : String) :
    keyInd rel s k ≤ 1 := by
  unfold keyInd
  split <;> omega

theorem keyInd_le_append (rel : List (String × Track)) (kv : String × Track)
    (s k : String) :
    keyInd rel s k ≤ keyInd (rel ++ [kv]) s k := by
  unfold keyInd
  by_cases h : dictContains (s ++ "_" ++ k) rel = true
  · have h2 : dictContains (s ++ "_" ++ k) (rel ++ [kv]) = true := by
      rw [dictContains_true_iff] at h ⊢
      rw [dictKeys_append]
      exact List.mem_append_left _ h
    simp [h, h2]
  · simp [h]

theorem RelInv_insert (rel : List (String × Track)) (att : List Track)
    (h : RelInv rel att) (oid kind : String) (rt : Track)
    (hs : rt.src = oid) (hk : rt.kind = kind)
    (habs : dictContains (oid ++ "_" ++ kind) rel = false) :
    RelInv (rel ++ [(oid ++ "_" ++ kind, rt)]) (att ++ [rt]) := by
  obtain ⟨hnd, hcnt⟩ := h
  have hnot : (oid ++ "_" ++ kind) ∉ dictKeys rel :=
    (dictContains_false_iff _ _).mp habs
  constructor
  · rw [dictKeys_append, List.nodup_append]
    refine ⟨hnd, List.nodup_singleton _, ?_⟩
    intro a ha hb
    have : a = oid ++ "_" ++ kind := by
      simpa [dictKeys] using hb
    rw [this] at ha
    exact hnot ha
  · intro s k
    rw [countPair_append]
    by_cases hp : s = oid ∧ k = kind
    · obtain ⟨rfl, rfl⟩ := hp
      have h0 : keyInd rel s k = 0 := by simp [keyInd, habs]
      have hc0 : countPair att s k = 0 := by
        have := hcnt s k
        omega
      have h1 : countPair [rt] s k = 1 := by
        rw [countPair_single, if_pos ⟨hs, hk⟩]
      have h2 : keyInd (rel ++ [(s ++ "_" ++ k, rt)]) s k = 1 := by
        have : dictContains (s ++ "_" ++ k) (rel ++ [(s ++ "_" ++ k, rt)]) = true := by
          rw [dictContains_true_iff, dictKeys_append]
          exact List.mem_append_right _ (by simp [dictKeys])
        simp [keyInd, this]
      omega
    · have h1 : countPair [rt] s k = 0 := by
        rw [countPair_single, if_neg]
        intro hc
        exact hp ⟨hc.1.symm.trans hs, hc.2.symm.trans hk⟩
      rw [h1, Nat.add_zero]
      exact le_trans (hcnt s k) (keyInd_le_append rel _ s k)

theorem relayKinds_inv (sub : Track → Except String Track) (hsub : SubWF sub)
    (oid : String) :
    ∀ (tracks : List (String × Track)) (p : Participant) (pc : PeerConnection),
      TracksWF oid tracks →
      RelInv p.relay_tracks pc.addedTracks →
      RelInv (relayKinds sub oid tracks p pc).1.1.relay_tracks
             (relayKinds sub oid tracks p pc).1.2.addedTracks := by
  intro tracks
  induction tracks with
  | nil => intro p pc _ h; exact h
  | cons kt rest ih =>
    intro p pc hwf h
    obtain ⟨kind, track⟩ := kt
    have hwf1 : track.kind = kind ∧ track.src = oid :=
      hwf (kind, track) (List.mem_cons_self _ _)
    have hwfr : TracksWF oid rest := fun kt2 hkt => hwf kt2 (List.mem_cons_of_mem _ hkt)
    by_cases hc : dictContains (oid ++ "_" ++ kind) p.relay_tracks = true
    · simp only [relayKinds, hc, if_true]
      exact ih p pc hwfr h
    · have hcf : dictContains (oid ++ "_" ++ kind) p.relay_tracks = false := by
        simpa using hc
      simp only [relayKinds, hc, if_false, Bool.false_eq_true]
      cases hsv : sub track with
      | error e => exact h
      | ok rt =>
        have hrt := hsub track rt hsv
        apply ih _ _ hwfr
        show RelInv (dictInsert (oid ++ "_" ++ kind) rt p.relay_tracks)
          (pc.addedTracks ++ [rt])
        rw [dictInsert_of_not_contains _ _ _ hcf]
        exact RelInv_insert p.relay_tracks pc.addedTracks h oid kind rt
          (hrt.1.trans hwf1.2) (hrt.2.trans hwf1.1) hcf

theorem relayOthers_inv (sub : Track → Except String Track) (hsub : SubWF sub) :
    ∀ (others : List Participant) (p : Participant) (pc : PeerConnection),
      (∀ o ∈ others, TracksWF o.id o.tracks) →
      RelInv p.relay_tracks pc.addedTracks →
      RelInv (relayOthers sub others p pc).1.1.relay_tracks
             (relayOthers sub others p pc).1.2.addedTracks := by
  intro others
  induction others with
  | nil => intro p pc _ h; exact h
  | cons other rest ih =>
    intro p pc hwf h
    have h1 := relayKinds_inv sub hsub other.id other.tracks p pc
      (hwf other (List.mem_cons_self _ _)) h
    rcases hrk : relayKinds sub other.id other.tracks p pc with ⟨⟨p1, pc1⟩, err⟩
    rw [hrk] at h1
    simp only [relayOthers, hrk]
    cases err with
    | some e => exact h1
    | none => exact ih p1 pc1 (fun o ho => hwf o (List.mem_cons_of_mem _ ho)) h1

theorem applyOffer_inv (sub : Track → Except String Track)
    (answer : SessionDescription) (m : Meeting) (p : Participant)
    (pc : PeerConnection) (offer : SessionDescription) (hsub : SubWF sub)
    (hm : MeetingWF m) (h : RelInv p.relay_tracks pc.addedTracks) :
    Inv (applyOffer sub answer m p pc offer).1 := by
  have hothers : ∀ o ∈ get_other_participants m p.id, TracksWF o.id o.tracks := by
    intro o ho
    simp only [get_other_participants, List.mem_map] at ho
    obtain ⟨pr, hpr, rfl⟩ := ho
    exact hm pr (List.mem_of_mem_filter hpr)
  have hinv := relayOthers_inv sub hsub (get_other_participants m p.id) p
    { pc with remoteDescription := some offer
              signalingState := haveRemoteOffer } hothers h
  simp only [applyOffer]
  rcases hro : relayOthers sub (get_other_participants m p.id) p
      { pc with remoteDescription := some offer
                signalingState := haveRemoteOffer } with ⟨⟨p2, pc2⟩, err⟩
  rw [hro] at hinv
  cases err with
  | some e => exact hinv
  | none => exact hinv

theorem applyOffer_relay_append (sub : Track → Except String Track)
    (answer : SessionDescription) (m : Meeting) (p : Participant)
    (pc : PeerConnection) (offer : SessionDescription) :
    ∃ tail, (applyOffer sub answer m p pc offer).1.relay_tracks =
      p.relay_tracks ++ tail := by
  have ha := relayOthers_relay_append sub (get_other_participants m p.id) p
    { pc with remoteDescription := some offer
              signalingState := haveRemoteOffer }
  simp only [applyOffer]
  rcases hro : relayOthers sub (get_other_participants m p.id) p
      { pc with remoteDescription := some offer
                signalingState := haveRemoteOffer } with ⟨⟨p2, pc2⟩, err⟩
  rw [hro] at ha
  cases err with
  | some e => exact ha
  | none => exact ha

theorem attachedTracks_some (p : Participant) (pc0 : PeerConnection)
    (h : p.pc = some pc0) : attachedTracks p = pc0.addedTracks := by
  simp [attachedTracks, h]

theorem handle_offer_inv (sub : Track → Except String Track) (s2 : String)
    (answer : SessionDescription) (m : Meeting) (p : Participant)
    (offer : SessionDescription) (hsub : SubWF sub) (hm : MeetingWF m)
    (h : Inv p) :
    Inv (handle_offer sub s2 answer m p offer).1 := by
  cases hpc : p.pc with
  | none =>
    simp only [handle_offer, hpc]
    apply applyOffer_inv _ _ _ _ _ _ hsub hm
    refine ⟨h.1, ?_⟩
    intro s k
    show countPair [] s k ≤ _
    rw [countPair_nil]
    exact Nat.zero_le _
  | some pc0 =>
    have hat : attachedTracks p = pc0.addedTracks := attachedTracks_some p pc0 hpc
    have h' : RelInv p.relay_tracks pc0.addedTracks := by
      have := h
      unfold Inv at this
      rw [hat] at this
      exact this
    simp only [handle_offer, hpc]
    by_cases h1 : pc0.signalingState ≠ stableState
    · rw [if_pos h1]
      by_cases h2 : s2 ≠ stableState
      · rw [if_pos h2]
        exact h'
      · rw [if_neg h2]
        exact applyOffer_inv _ _ _ _ _ _ hsub hm h'
    · rw [if_neg h1]
      exact applyOffer_inv _ _ _ _ _ _ hsub hm h'

theorem handle_offer_relay_append (sub : Track → Except String Track)
    (s2 : String) (answer : SessionDescription) (m : Meeting)
    (p : Participant) (offer : SessionDescription) :
    ∃ tail, (handle_offer sub s2 answer m p offer).1.relay_tracks =
      p.relay_tracks ++ tail := by
  cases hpc : p.pc with
  | none =>
    simp only [handle_offer, hpc]
    exact applyOffer_relay_append sub answer m _ newPeerConnection offer
  | some pc0 =>
    simp only [handle_offer, hpc]
    by_cases h1 : pc0.signalingState ≠ stableState
    · rw [if_pos h1]
      by_cases h2 : s2 ≠ stableState
      · rw [if_pos h2]
        exact ⟨[], by simp⟩
      · rw [if_neg h2]
        exact applyOffer_relay_append sub answer m _ _ offer
    · rw [if_neg h1]
      exact applyOffer_relay_append sub answer m p pc0 offer

theorem runOffers_cons (c : OfferCall) (cs : List OfferCall) (p : Participant) :
    runOffers (c :: cs) p =
      runOffers cs (handle_offer c.sub c.s2 c.answer c.m p c.offer).1 := rfl

/-- C3: across any sequence of handle_offer calls (in arbitrary meeting
environments, with calls allowed to fail), the participant never holds
two relay subscriptions for the same (source id, kind) pair: the number
of attached relay copies of any pair stays at most 1, subscriptions are
recorded at most once, entries are only appended (never removed), and
they are cleared exactly by destroying the participant
(`Participant.close`). -/
theorem C3_relay_subscriptions_unique (p0 : Participant)
    (calls : List OfferCall) (h0 : Inv p0) (hwf : ∀ c ∈ calls, CallWF c) :
    (Inv (runOffers calls p0) ∧
     ∀ s k, countPair (attachedTracks (runOffers calls p0)) s k ≤ 1) ∧
    (∃ tail, (runOffers calls p0).relay_tracks = p0.relay_tracks ++ tail) ∧
    ∀ q : Participant, (Participant.close q).relay_tracks = [] ∧
      (Participant.close q).pc = none := by
  induction calls generalizing p0 with
  | nil =>
    refine ⟨⟨h0, ?_⟩, ⟨[], by simp [runOffers]⟩, fun q => ⟨rfl, rfl⟩⟩
    intro s k
    exact le_trans (h0.2 s k) (keyInd_le_one _ s k)
  | cons c cs ih =>
    have hc := hwf c (List.mem_cons_self _ _)
    have h1 : Inv (handle_offer c.sub c.s2 c.answer c.m p0 c.offer).1 :=
      handle_offer_inv c.sub c.s2 c.answer c.m p0 c.offer hc.1 hc.2 h0
    obtain ⟨t1, ht1⟩ := handle_offer_relay_append c.sub c.s2 c.answer c.m p0 c.offer
    obtain ⟨⟨hi, hb⟩, ⟨t2, ht2⟩, hcl⟩ :=
      ih _ h1 (fun d hd => hwf d (List.mem_cons_of_mem _ hd))
    rw [runOffers_cons]
    exact ⟨⟨hi, hb⟩, ⟨t1 ++ t2, by rw [ht2, ht1, List.append_assoc]⟩, hcl⟩

/-- A freshly created participant satisfies the relay invariant. -/
theorem Inv_of_empty (p : Participant) (h1 : p.pc = none)
    (h2 : p.relay_tracks = []) : Inv p := by
  constructor
  · rw [h2]
    exact List.nodup_nil
  · intro s k
    show countPair (attachedTracks p) s k ≤ _
    rw [show attachedTracks p = [] from by simp [attachedTracks, h1],
      countPair_nil]
    exact Nat.zero_le _

def callB : OfferCall :=
  { sub := subOK, s2 := stableState, answer := sdpAnswer, m := mWithB,
    offer := sdpOffer }

theorem subOK_WF : SubWF subOK := by
  intro t r h
  have ht : t = r := by
    simpa [subOK] using h
  rw [ht]
  exact ⟨rfl, rfl⟩

theorem mWithB_WF : MeetingWF mWithB := by
  intro pr hpr kt hkt
  simp only [mWithB, List.mem_singleton] at hpr
  subst hpr
  simp only [pBtracks, pB, List.mem_singleton] at hkt
  subst hkt
  exact ⟨rfl, rfl⟩

/-- C3 witness: two successive offers from a fresh participant against a
meeting containing one other participant with an audio track. -/
theorem C3_relay_subscriptions_unique_witness :
    (Inv pA ∧ ∀ c ∈ [callB, callB], CallWF c) ∧
    ((Inv (runOffers [callB, callB] pA) ∧
      ∀ s k, countPair (attachedTracks (runOffers [callB, callB] pA)) s k ≤ 1) ∧
    (∃ tail, (runOffers [callB, callB] pA).relay_tracks =
      pA.relay_tracks ++ tail) ∧
    ∀ q : Participant, (Participant.close q).relay_tracks = [] ∧
      (Participant.close q).pc = none) :=
  have hInv : Inv pA := Inv_of_empty pA rfl rfl
  have hwf : ∀ c ∈ [callB, callB], CallWF c := by
    intro c hc
    have : c = callB := by
      rcases List.mem_cons.mp hc with h | h
      · exact h
      · simpa using h
    rw [this]
    exact ⟨subOK_WF, mWithB_WF⟩
  ⟨⟨hInv, hwf⟩, C3_relay_subscriptions_unique pA [callB, callB] hInv hwf⟩

/-! Claim C1. -/

/-- C1 counterexample: two joins whose uuid draws agree on the first 8
characters.  The second participant's id equals the first's (so it is
not distinct from the currently-registered ids), and the first
participant is silently evicted: looking up Alice's id now returns
Bob's record. -/
theorem C1_counterexample :
    (add_participant drawA2 nameBob
        (add_participant drawA nameAlice meeting0).1).2.id ∈
      dictKeys (add_participant drawA nameAlice meeting0).1.participants ∧
    dictGet (add_participant drawA nameAlice meeting0).2.id
        (add_participant drawA2 nameBob
          (add_participant drawA nameAlice meeting0).1).1.participants =
      some (add_participant drawA2 nameBob
        (add_participant drawA nameAlice meeting0).1).2 := by
  decide

/-- C1 amended: provided the 8-character truncation of the uuid draw
does not collide with a currently-registered id, add_participant gives
the new participant an id distinct from all registered ids, appends it
to the registry (leaving all other entries unchanged), and returns it;
the operation is total. -/
theorem C1_fresh_draw_unique (draw : String) (name : String) (m : Meeting)
    (hfresh : dictContains (pyTake8 draw) m.participants = false) :
    (add_participant draw name m).2.id ∉ dictKeys m.participants ∧
    (add_participant draw name m).1.participants =
      m.participants ++
        [((add_participant draw name m).2.id, (add_participant draw name m).2)] ∧
    (add_participant draw name m).2.name = name ∧
    get_participant (add_participant draw name m).2.id
        (add_participant draw name m).1 =
      some (add_participant draw name m).2 := by
  refine ⟨?_, ?_, rfl, ?_⟩
  · exact (dictContains_false_iff _ _).mp hfresh
  · show dictInsert (pyTake8 draw) _ m.participants = _
    rw [dictInsert_of_not_contains _ _ _ hfresh]
    rfl
  · show dictGet (pyTake8 draw) (dictInsert (pyTake8 draw) _ m.participants) = _
    exact dictGet_insert_self _ _ _

/-- C1 amended witness: a fresh join into the empty meeting. -/
theorem C1_fresh_draw_unique_witness :
    dictContains (pyTake8 drawB) meeting0.participants = false ∧
    ((add_participant drawB nameBob meeting0).2.id ∉
        dictKeys meeting0.participants ∧
    (add_participant drawB nameBob meeting0).1.participants =
      meeting0.participants ++
        [((add_participant drawB nameBob meeting0).2.id,
          (add_participant drawB nameBob meeting0).2)] ∧
    (add_participant drawB nameBob meeting0).2.name = nameBob ∧
    get_participant (add_participant drawB nameBob meeting0).2.id
        (add_participant drawB nameBob meeting0).1 =
      some (add_participant drawB nameBob meeting0).2) :=
  ⟨rfl, C1_fresh_draw_unique drawB nameBob meeting0 rfl⟩

/-! Claim C4. -/

/-- C4 counterexample: the very first joiner's "joined" reply does not
carry an empty participants list — it contains the joiner, because the
list is taken after the joiner was inserted into the registry. -/
theorem C4_counterexample :
    (handle_join drawA (some nameAlice) meeting0 sig0).sent.head? =
      some (idA8, ServerMsg.joined idA8 [(idA8, nameAlice)]) ∧
    [(idA8, nameAlice)] ≠ ([] : List (String × String)) := by
  decide

theorem get_participant_list_insert (m : Meeting) (k : String)
    (p : Participant) (hfresh : dictContains k m.participants = false) :
    get_participant_list { participants := dictInsert k p m.participants } =
      get_participant_list m ++ [(p.id, p.name)] := by
  simp [get_participant_list, dictInsert_of_not_contains _ _ _ hfresh]

/-- C4 amended: the "joined" reply sent to a joiner carries the
participant list of the registry after the insertion, i.e. all
previously registered participants in order followed by the joiner
themself (assuming the drawn id is fresh); it is followed by the
`participant_joined` broadcast excluding the joiner. -/
theorem C4_joined_list_includes_self (draw : String)
    (dataName : Option String) (m : Meeting) (sig : SigState)
    (hfresh : dictContains (pyTake8 draw) m.participants = false) :
    (handle_join draw dataName m sig).sent =
      (pyTake8 draw,
       ServerMsg.joined (pyTake8 draw)
         (get_participant_list m ++
           [(pyTake8 draw, dataName.getD anonymousName)])) ::
      broadcast (register (pyTake8 draw) false sig)
        (ServerMsg.participant_joined (pyTake8 draw) (dataName.getD anonymousName))
        (some (pyTake8 draw)) := by
  simp only [handle_join, add_participant]
  rw [get_participant_list_insert _ _ _ hfresh]

/-- C4 amended witness: Alice joins the empty meeting; her "joined"
reply lists herself (the registry after insertion), not the empty
list. -/
theorem C4_joined_list_includes_self_witness :
    dictContains (pyTake8 drawA) meeting0.participants = false ∧
    (handle_join drawA (some nameAlice) meeting0 sig0).sent =
      (pyTake8 drawA,
       ServerMsg.joined (pyTake8 drawA)
         (get_participant_list meeting0 ++
           [(pyTake8 drawA, (some nameAlice).getD anonymousName)])) ::
      broadcast (register (pyTake8 drawA) false sig0)
        (ServerMsg.participant_joined (pyTake8 drawA)
          ((some nameAlice).getD anonymousName))
        (some (pyTake8 drawA)) :=
  ⟨rfl, C4_joined_list_includes_self drawA (some nameAlice) meeting0 sig0 rfl⟩

/-! Claim C8. -/

theorem pollFrom_none (obs : Nat → List (String × Track)) :
    ∀ (r i : Nat), (∀ j, j < i + r → obs j = []) → pollFrom obs i r = none := by
  intro r
  induction r with
  | zero => intro i _; rfl
  | succ n ih =>
    intro i h
    have h0 : obs i = [] := h i (by omega)
    simp only [pollFrom, h0, if_pos]
    exact ih (i + 1) (fun j hj => h j (by omega))

theorem send_to_mem (sig : SigState) (pid : String) (msg : ServerMsg)
    (x : String × ServerMsg) (hx : x ∈ send_to sig pid msg) :
    x = (pid, msg) := by
  unfold send_to at hx
  cases hg : dictGet pid sig.websockets with
  | none =>
    simp only [hg] at hx
    exact absurd hx (List.not_mem_nil _)
  | some closed =>
    simp only [hg] at hx
    by_cases hc : closed = true
    · rw [if_pos hc] at hx
      simp at hx
    · rw [if_neg hc] at hx
      simpa using hx

theorem notifyOthers_mem (sig : SigState) :
    ∀ (others : List Participant) (x : String × ServerMsg),
      x ∈ notifyOthers sig others →
      ∃ other ∈ others, x.1 = other.id ∧
        (∃ pc, other.pc = some pc ∧ pc.connectionState = connectedState) ∧
        x.2 = ServerMsg.request_offer reasonNewParticipant := by
  intro others
  induction others with
  | nil => intro x hx; simp [notifyOthers] at hx
  | cons other rest ih =>
    intro x hx
    unfold notifyOthers at hx
    cases hpc : other.pc with
    | none =>
      simp only [hpc] at hx
      obtain ⟨o, ho, h⟩ := ih x hx
      exact ⟨o, List.mem_cons_of_mem _ ho, h⟩
    | some pc =>
      simp only [hpc] at hx
      by_cases hcs : pc.connectionState = connectedState
      · rw [if_pos hcs] at hx
        rcases List.mem_append.mp hx with hx1 | hx2
        · have hxe := send_to_mem sig other.id _ x hx1
          refine ⟨other, List.mem_cons_self _ _, ?_⟩
          rw [hxe]
          exact ⟨rfl, ⟨pc, hpc, hcs⟩, rfl⟩
        · obtain ⟨o, ho, h⟩ := ih x hx2
          exact ⟨o, List.mem_cons_of_mem _ ho, h⟩
      · rw [if_neg hcs] at hx
        obtain ⟨o, ho, h⟩ := ih x hx
        exact ⟨o, List.mem_cons_of_mem _ ho, h⟩

/-- C8: if the new participant's tracks are absent at all 20 polling
checks, the track-readiness notification sends nothing (and, being a
total function, raises nothing); whenever it does send, every delivery
is a request_offer addressed to another participant whose connection
state is "connected". -/
theorem C8_poll_timeout_no_requests (obs : Nat → List (String × Track))
    (newId : String) (m : Meeting) (sig : SigState) :
    ((∀ i, i < 20 → obs i = []) →
      relay_tracks_and_renegotiate obs newId m sig = []) ∧
    ∀ x ∈ relay_tracks_and_renegotiate obs newId m sig,
      ∃ other ∈ get_other_participants m newId, x.1 = other.id ∧
        (∃ pc, other.pc = some pc ∧ pc.connectionState = connectedState) ∧
        x.2 = ServerMsg.request_offer reasonNewParticipant := by
  constructor
  · intro h
    unfold relay_tracks_and_renegotiate
    rw [pollFrom_none obs 20 0 (fun j hj => h j (by omega))]
  · intro x hx
    unfold relay_tracks_and_renegotiate at hx
    cases hpoll : pollFrom obs 0 20 with
    | none => rw [hpoll] at hx; simp at hx
    | some t =>
      rw [hpoll] at hx
      exact notifyOthers_mem sig _ x hx

/-- C8 witness: a participant whose tracks never arrive, in a meeting
with two other registered participants. -/
theorem C8_poll_timeout_no_requests_witness :
    (∀ i, i < 20 → obsNever i = []) ∧
    relay_tracks_and_renegotiate obsNever idA8 mAB sigAB = [] :=
  ⟨fun _ _ => rfl,
   (C8_poll_timeout_no_requests obsNever idA8 mAB sigAB).1 (fun _ _ => rfl)⟩

/-! Claim C5. -/

/-- C5 counterexample: in a meeting holding Alice and Bob (both with
registered, open websockets), Alice's connection transitioning to
"failed" removes her from the registry but delivers no message at all:
Bob receives zero participant_left messages from the transition, not
exactly one. -/
theorem C5_counterexample :
    (on_connectionstatechange failedState idA8 mAB).1.participants =
      [(idB8, pB)] ∧
    (on_connectionstatechange failedState idA8 mAB).2 = [] ∧
    deliveredCount (on_connectionstatechange failedState idA8 mAB).2 idB8 = 0 := by
  decide

theorem dictContains_remove {α : Type} (k : String) (d : List (String × α)) :
    dictContains k (dictRemove k d) = false := by
  rw [dictContains_false_iff]
  intro hmem
  simp only [dictKeys, dictRemove, List.mem_map] at hmem
  obtain ⟨kv, hkv, hk⟩ := hmem
  rw [List.mem_filter] at hkv
  have : kv.1 ≠ k := by simpa using hkv.2
  exact this hk

theorem broadcast_mem (sig : SigState) (msg : ServerMsg)
    (exclude : Option String) (x : String × ServerMsg)
    (hx : x ∈ broadcast sig msg exclude) :
    x.1 ∈ dictKeys sig.websockets ∧ x.2 = msg := by
  unfold broadcast at hx
  obtain ⟨pw, hpw, hf⟩ := List.mem_filterMap.mp hx
  by_cases hc : (notExcluded exclude pw.1 && !pw.2) = true
  · rw [if_pos hc] at hf
    have hxe : x = (pw.1, msg) := by
      exact (Option.some_inj.mp hf).symm
    rw [hxe]
    exact ⟨List.mem_map.mpr ⟨pw, hpw, rfl⟩, rfl⟩
  · rw [if_neg hc] at hf
    exact absurd hf (Option.noConfusion)

theorem broadcast_count_zero (msg : ServerMsg) (exclude : Option String)
    (l : List (String × Bool)) (q : String) (hq : q ∉ dictKeys l) :
    deliveredCount (broadcast { websockets := l } msg exclude) q = 0 := by
  unfold deliveredCount
  rw [List.length_eq_zero]
  rw [List.filter_eq_nil_iff]
  intro x hx
  have := broadcast_mem { websockets := l } msg exclude x hx
  simp only [beq_iff_eq]
  intro hx1
  rw [hx1] at this
  exact hq this.1

theorem broadcast_count_one (msg : ServerMsg) :
    ∀ (l : List (String × Bool)) (q : String),
      (dictKeys l).Nodup → (q, false) ∈ l →
      deliveredCount (broadcast { websockets := l } msg none) q = 1 := by
  intro l
  induction l with
  | nil => intro q _ hq; exact absurd hq (List.not_mem_nil _)
  | cons pw rest ih =>
    intro q hn hq
    obtain ⟨k2, b⟩ := pw
    rw [dictKeys_cons] at hn
    have hn2 := List.nodup_cons.mp hn
    rcases List.mem_cons.mp hq with hhd | htl
    · have hk2 : k2 = q := (congrArg Prod.fst hhd).symm
      have hb : b = false := (congrArg Prod.snd hhd).symm
      subst hk2
      subst hb
      show deliveredCount (List.filterMap _ ((k2, false) :: rest)) k2 = 1
      rw [List.filterMap_cons]
      have hf : (if notExcluded none k2 && !false then
          some (k2, msg) else none) = some (k2, msg) := by
        simp [notExcluded]
      rw [hf]
      unfold deliveredCount
      rw [List.filter_cons]
      have : ((k2, msg).1 == k2) = true := by simp
      rw [if_pos this]
      simp only [List.length_cons]
      have hz := broadcast_count_zero msg none rest k2 hn2.1
      unfold deliveredCount at hz
      rw [show (broadcast { websockets := rest } msg none) =
          List.filterMap (fun pw =>
            if notExcluded none pw.1 && !pw.2 then some (pw.1, msg) else none)
            rest from rfl] at hz
      omega
    · have hqk : q ∈ dictKeys rest :=
        List.mem_map.mpr ⟨(q, false), htl, rfl⟩
      have hne : k2 ≠ q := fun he => hn2.1 (he ▸ hqk)
      show deliveredCount (List.filterMap _ ((k2, b) :: rest)) q = 1
      rw [List.filterMap_cons]
      have hrest := ih q hn2.2 htl
      cases hfb : (if notExcluded none k2 && !b then some (k2, msg) else none) with
      | none => exact hrest
      | some y =>
        have hy : y = (k2, msg) := by
          by_cases hc : (notExcluded none k2 && !b) = true
          · rw [if_pos hc] at hfb
            exact (Option.some_inj.mp hfb).symm
          · rw [if_neg hc] at hfb
            exact absurd hfb Option.noConfusion
        subst hy
        unfold deliveredCount
        rw [List.filter_cons]
        have : ¬(((k2, msg).1 == q) = true) := by simpa using hne
        rw [if_neg this]
        exact hrest

/-- C5 amended: a connection-state transition to "failed" or "closed"
removes the participant from the registry but sends no notification at
all ("disconnected" triggers neither removal nor notification); the
participant_left broadcast — delivered exactly once to every other
registered open websocket, and never to the leaver — happens at
websocket teardown, not at the state transition. -/
theorem C5_failed_removes_silently (pid : String) (m : Meeting)
    (sig : SigState) (hn : (dictKeys sig.websockets).Nodup) :
    (on_connectionstatechange failedState pid m =
       (remove_participant pid m, []) ∧
     on_connectionstatechange closedState pid m =
       (remove_participant pid m, []) ∧
     dictContains pid (remove_participant pid m).participants = false ∧
     on_connectionstatechange disconnectedState pid m = (m, [])) ∧
    (∀ q, q ≠ pid → (q, false) ∈ sig.websockets →
      deliveredCount (ws_teardown pid m sig).2.2 q = 1) ∧
    ∀ x ∈ (ws_teardown pid m sig).2.2,
      x.2 = ServerMsg.participant_left pid ∧ x.1 ≠ pid := by
  refine ⟨⟨?_, ?_, ?_, ?_⟩, ?_, ?_⟩
  · unfold on_connectionstatechange
    rw [if_pos (Or.inl rfl)]
  · unfold on_connectionstatechange
    rw [if_pos (Or.inr rfl)]
  · exact dictContains_remove pid m.participants
  · unfold on_connectionstatechange
    rw [if_neg (by decide)]
  · intro q hq hmem
    show deliveredCount
      (broadcast (unregister pid sig) (ServerMsg.participant_left pid) none) q = 1
    have hnr : (dictKeys (dictRemove pid sig.websockets)).Nodup := by
      apply List.Nodup.sublist _ hn
      exact List.Sublist.map Prod.fst (List.filter_sublist _)
    have hmr : (q, false) ∈ dictRemove pid sig.websockets := by
      rw [dictRemove, List.mem_filter]
      exact ⟨hmem, by simpa using hq⟩
    exact broadcast_count_one (ServerMsg.participant_left pid)
      (dictRemove pid sig.websockets) q hnr hmr
  · intro x hx
    have := broadcast_mem (unregister pid sig)
      (ServerMsg.participant_left pid) none x hx
    refine ⟨this.2, ?_⟩
    intro hxp
    have hmem := this.1
    rw [hxp] at hmem
    have : dictContains pid (dictRemove pid sig.websockets) = false :=
      dictContains_remove pid sig.websockets
    rw [dictContains_false_iff] at this
    exact this hmem

/-- C5 amended witness: Alice and Bob registered with open websockets;
Alice fails and is removed silently; the teardown broadcast reaches Bob
exactly once. -/
theorem C5_failed_removes_silently_witness :
    (dictKeys sigAB.websockets).Nodup ∧
    ((on_connectionstatechange failedState idA8 mAB =
       (remove_participant idA8 mAB, []) ∧
     on_connectionstatechange closedState idA8 mAB =
       (remove_participant idA8 mAB, []) ∧
     dictContains idA8 (remove_participant idA8 mAB).participants = false ∧
     on_connectionstatechange disconnectedState idA8 mAB = (mAB, [])) ∧
    (∀ q, q ≠ idA8 → (q, false) ∈ sigAB.websockets →
      deliveredCount (ws_teardown idA8 mAB sigAB).2.2 q = 1) ∧
    ∀ x ∈ (ws_teardown idA8 mAB sigAB).2.2,
      x.2 = ServerMsg.participant_left idA8 ∧ x.1 ≠ idA8) :=
  ⟨by decide, C5_failed_removes_silently idA8 mAB sigAB (by decide)⟩

/-! Claim C6. -/

/-- C6 counterexample: a session whose frames are a valid join, an
unparseable frame, and another valid frame.  The loop crashes on the
unparseable frame after consuming only 2 of the 3 frames (it does not
drop it and continue), and a participant exists at exit, so the
finalization tears the participant down. -/
theorem C6_counterexample :
    message_loop [some joinData, none, some joinData] false =
      (2, LoopEnd.crashed, true) ∧
    LoopEnd.crashed ≠ LoopEnd.channelClosed := by
  decide

/-- C6 amended: a message that parses but lacks the required "type"
field is dropped and the loop keeps processing subsequent messages; an
unparseable message, by contrast, raises out of the loop immediately
(consuming only that message), and the participant — if one exists — is
then torn down by the finalization block. -/
theorem C6_malformed_message_behavior (d : ClientData)
    (rest : List (Option ClientData)) (hp : Bool) (hd : d.msgType = none) :
    process_text_message (some d) hp = (StepOutcome.continued, hp) ∧
    message_loop (some d :: rest) hp =
      ((message_loop rest hp).1 + 1, (message_loop rest hp).2.1,
       (message_loop rest hp).2.2) ∧
    message_loop (none :: rest) hp = (1, LoopEnd.crashed, hp) := by
  have h1 : process_text_message (some d) hp = (StepOutcome.continued, hp) := by
    show (match d.msgType with
      | none => (StepOutcome.continued, hp)
      | some t =>
        if t = typeJoin then (StepOutcome.continued, true)
        else if t = typeLeave ∧ hp = true then (StepOutcome.leftLoop, hp)
        else (StepOutcome.continued, hp)) = (StepOutcome.continued, hp)
    rw [hd]
  refine ⟨h1, ?_, rfl⟩
  show (match process_text_message (some d) hp with
    | (StepOutcome.continued, hp2) =>
      ((message_loop rest hp2).1 + 1, (message_loop rest hp2).2.1,
       (message_loop rest hp2).2.2)
    | (StepOutcome.leftLoop, hp2) => (1, LoopEnd.leftMeeting, hp2)
    | (StepOutcome.raised, hp2) => (1, LoopEnd.crashed, hp2)) = _
  rw [h1]

/-- C6 amended witness: a typeless message followed by a join is
dropped; the join is still processed; an unparseable frame crashes. -/
theorem C6_malformed_message_behavior_witness :
    noTypeData.msgType = none ∧
    (process_text_message (some noTypeData) true = (StepOutcome.continued, true) ∧
    message_loop [some noTypeData, some joinData] true =
      ((message_loop [some joinData] true).1 + 1,
       (message_loop [some joinData] true).2.1,
       (message_loop [some joinData] true).2.2) ∧
    message_loop [none, some joinData] true = (1, LoopEnd.crashed, true)) :=
  ⟨rfl, C6_malformed_message_behavior noTypeData [some joinData] true rfl⟩

end Teams2
